import Mathlib

set_option maxHeartbeats 1000000
set_option maxRecDepth 100000

attribute [local semireducible] Rat.mul Rat.add Rat.sub Rat.inv Rat.ofScientific

/-
Verification development for the strategy engine in src/strategies.py.

Modelling conventions:
* Prices and indicator values are modelled as exact rationals (ℚ).
* Bar timestamps are modelled as integers (ℤ), one unit per calendar day,
  so the Python expression `(current_date - entry_date).days` becomes
  plain integer subtraction.
* A pandas DataFrame row is a record holding exactly the columns the
  scan loops read.  The indicator columns produced in `__init__` by the
  external pandas/pandas_ta library (SMA, RSI, MACD, ATR, ...) are taken
  as given inputs; the rolling highs `High_20`/`High_30`, which the scan
  reads through `iloc[i-1]`, are computed here from the `high` column
  (trailing window maximum, matching `rolling(window=n).max()` at every
  index the loops access, i.e. i-1 ≥ n-1).
* The four `generate_signals` methods share one loop shape; they are
  embedded as one scan parameterized by a per-strategy configuration
  whose predicates are transcribed literally from each class.
-/

/-- The TradeSignal dataclass of src/strategies.py (lines 8-15). -/
structure TradeSignal where
  timestamp : ℤ
  type : String
  price : ℚ
  stop_loss : ℚ
  take_profit : ℚ
  reason : String
deriving DecidableEq

instance : Inhabited TradeSignal := ⟨⟨0, "", 0, 0, 0, ""⟩⟩

/-- The mutable loop state of every `generate_signals` method:
`position_open`, `entry_price`, `entry_date` and the accumulated
`signals` list.  Python initializes `entry_price = 0` and
`entry_date = None`; both are only read while a position is open, and
the `None` is modelled as the integer 0. -/
structure ScanState where
  position_open : Bool
  entry_price : ℚ
  entry_date : ℤ
  signals : List TradeSignal
deriving DecidableEq

/-- Initial loop state: no position, no signals. -/
def ScanState.init : ScanState := ⟨false, 0, 0, []⟩

/-- Per-strategy configuration: warm-up bound, how to read the
timestamp and close of a row, the entry and exit predicates, and the
stop/target formulas recorded on an emitted signal. -/
structure ScanConfig (ρ : Type) where
  warmup : Nat
  timestamp : ρ → ℤ
  close : ρ → ℚ
  entryCond : List ρ → Nat → Bool
  exitCond : List ρ → Nat → ℚ → ℤ → Bool
  stop_loss : List ρ → Nat → ℚ
  take_profit : List ρ → Nat → ℚ
  reason : String

/-- The TradeSignal appended when an entry fires at bar `i`:
`timestamp = data.index[i]`, `type = 'LONG'`, `price = close[i]`, with
the strategy's stop/target formulas and reason string. -/
def mkEntrySignal [Inhabited ρ] (cfg : ScanConfig ρ) (data : List ρ) (i : Nat) : TradeSignal :=
  ⟨cfg.timestamp (data.getD i default), "LONG", cfg.close (data.getD i default),
    cfg.stop_loss data i, cfg.take_profit data i, cfg.reason⟩

/-- One iteration of the scan loop at bar `i`.  Mirrors the body shared
by all four `generate_signals` methods: if a position is open and any
exit condition holds, close it and `continue` (skipping the entry
check); otherwise, if no position is open and the entry conditions
hold, append a LONG signal and record entry price/date; otherwise the
state is unchanged. -/
def scanStep [Inhabited ρ] (cfg : ScanConfig ρ) (data : List ρ) (i : Nat)
    (st : ScanState) : ScanState :=
  if st.position_open && cfg.exitCond data i st.entry_price st.entry_date then
    { st with position_open := false, entry_price := 0, entry_date := 0 }
  else if !st.position_open && cfg.entryCond data i then
    { position_open := true,
      entry_price := cfg.close (data.getD i default),
      entry_date := cfg.timestamp (data.getD i default),
      signals := st.signals ++ [mkEntrySignal cfg data i] }
  else st

/-- Loop state after processing bars `warmup, warmup+1, ..., i-1`
(the Python loop `for i in range(warmup, len(data))`, truncated at `i`). -/
def scanStateAt [Inhabited ρ] (cfg : ScanConfig ρ) (data : List ρ) : Nat → ScanState
  | 0 => ScanState.init
  | i + 1 =>
    if cfg.warmup ≤ i ∧ i < data.length then
      scanStep cfg data i (scanStateAt cfg data i)
    else scanStateAt cfg data i

/-- The signal list returned by `generate_signals`: the signals
accumulated by the scan over the whole series. -/
def generateSignals [Inhabited ρ] (cfg : ScanConfig ρ) (data : List ρ) : List TradeSignal :=
  (scanStateAt cfg data data.length).signals

/-- Ghost trace of state transitions: `(i, true)` records an entry
(FLAT → LONG_OPEN) firing at bar `i`, `(i, false)` records an exit
(LONG_OPEN → FLAT) firing at bar `i`.  Truncated at `n` like
`scanStateAt`. -/
def scanEventsAt [Inhabited ρ] (cfg : ScanConfig ρ) (data : List ρ) : Nat → List (Nat × Bool)
  | 0 => []
  | i + 1 =>
    if cfg.warmup ≤ i ∧ i < data.length then
      if (scanStateAt cfg data i).position_open
          && cfg.exitCond data i (scanStateAt cfg data i).entry_price
               (scanStateAt cfg data i).entry_date then
        scanEventsAt cfg data i ++ [(i, false)]
      else if !(scanStateAt cfg data i).position_open && cfg.entryCond data i then
        scanEventsAt cfg data i ++ [(i, true)]
      else scanEventsAt cfg data i
    else scanEventsAt cfg data i

/-- The full transition trace of a strategy run. -/
def transitions [Inhabited ρ] (cfg : ScanConfig ρ) (data : List ρ) : List (Nat × Bool) :=
  scanEventsAt cfg data data.length

/-- Bar indices at which an entry fired (in order). -/
def entryIndices [Inhabited ρ] (cfg : ScanConfig ρ) (data : List ρ) : List Nat :=
  ((transitions cfg data).filter (fun p => p.2)).map Prod.fst

/-- Row of the prepared ACC DataFrame: the columns read by
`ACCStrategy.generate_signals` (the raw high/low/volume columns are
only consumed by the indicator pre-computation, not by the scan). -/
structure ARow where
  timestamp : ℤ
  close : ℚ
  SMA_20 : ℚ
  SMA_50 : ℚ
  SMA_200 : ℚ
  RSI : ℚ
  ATR : ℚ
  ATR_MA : ℚ
  MACD : ℚ
  MACD_Signal : ℚ
  MACD_Hist : ℚ
  Higher_High : Bool
  Lower_Low : Bool
  Volume_Ratio : ℚ
  ROC_5 : ℚ
  ROC_20 : ℚ
deriving DecidableEq

instance : Inhabited ARow := ⟨⟨0, 0, 0, 0, 0, 0, 0, 0, 0, 0, 0, false, false, 0, 0, 0⟩⟩

/-- Exit conditions of ACCStrategy (src/strategies.py lines 100-115),
evaluated at bar `i` with the recorded entry price and date. -/
def accExit (data : List ARow) (i : Nat) (entry_price : ℚ) (entry_date : ℤ) : Bool :=
  let row := data.getD i default
  let current_price := row.close
  let current_date := row.timestamp
  let volatility_exit := decide (row.ATR > row.ATR_MA * 1.3)
  let trend_exit := decide (current_price < row.SMA_20)
  let momentum_exit := decide (row.MACD < row.MACD_Signal) && decide (row.MACD_Hist < 0)
  let rsi_exit := decide (row.RSI > 70)
  let exit_conditions := [volatility_exit, trend_exit, momentum_exit, rsi_exit,
    decide (current_price ≤ entry_price * 0.98),
    decide (current_price ≥ entry_price * 1.04),
    decide (current_date - entry_date ≥ 8)]
  exit_conditions.any (fun b => b)

/-- The `volatility_ok` entry check of ACCStrategy (lines 126-127):
strict inequalities on both sides. -/
def accVolatilityOk (data : List ARow) (i : Nat) : Bool :=
  decide ((data.getD i default).ATR < (data.getD i default).ATR_MA * 1.1) &&
  decide ((data.getD i default).ATR > (data.getD i default).ATR_MA * 0.7)

/-- The entry conditions of ACCStrategy other than `volatility_ok`
(lines 130-148): `trend_ok`, `momentum_ok`, `volume_ok`, `pattern_ok`. -/
def accEntryOther (data : List ARow) (i : Nat) : Bool :=
  let row := data.getD i default
  let current_price := row.close
  let trend_ok := decide (current_price > row.SMA_20) && decide (row.SMA_20 > row.SMA_50) &&
    decide (row.SMA_50 > row.SMA_200)
  let momentum_ok := decide (row.RSI > 45) && decide (row.RSI < 65) &&
    decide (row.MACD > row.MACD_Signal) && decide (row.MACD_Hist > 0) &&
    decide (row.ROC_5 > 0) && decide (row.ROC_20 > 0)
  let volume_ok := decide (row.Volume_Ratio > 1.3)
  let pattern_ok := row.Higher_High && !row.Lower_Low &&
    decide (current_price > row.SMA_20 * 1.01)
  [trend_ok, momentum_ok, volume_ok, pattern_ok].all (fun b => b)

/-- Entry conditions of ACCStrategy (lines 124-159): all five checks
must hold (`all(entry_conditions)`). -/
def accEntry (data : List ARow) (i : Nat) : Bool :=
  accVolatilityOk data i && accEntryOther data i

/-- Strategy A configuration (ACCStrategy, lines 88-178): warm-up 200,
ATR-based stop/target (lines 161-163). -/
def accConfig : ScanConfig ARow where
  warmup := 200
  timestamp := ARow.timestamp
  close := ARow.close
  entryCond := accEntry
  exitCond := accExit
  stop_loss := fun data i => (data.getD i default).close - (data.getD i default).ATR * 1.2
  take_profit := fun data i => (data.getD i default).close + (data.getD i default).ATR * 2.0
  reason := "Strong trend with momentum and volume confirmation"

/-- Row of the breakout strategies' DataFrame (AdaniEnterprisesStrategy
and AdaniPortsStrategy): timestamp, close and high.  The rolling highs
`High_20`/`High_30` are derived from `high` below. -/
structure BRow where
  timestamp : ℤ
  close : ℚ
  high : ℚ
deriving DecidableEq

instance : Inhabited BRow := ⟨⟨0, 0, 0⟩⟩

/-- Trailing rolling maximum of the `high` column with window `w` at
index `j` (pandas `high.rolling(window=w).max()`), as read by the scans
at every index they access (j ≥ w-1, where the window is full). -/
def rollingMaxHigh (highs : List ℚ) (w j : Nat) : ℚ :=
  ((List.range w).map (fun k => highs.getD (j - k) 0)).foldl max (highs.getD j 0)

/-- Breakout entry of AdaniEnterprisesStrategy (line 213):
`close[i] > High_20[i-1]`. -/
def aelEntry (data : List BRow) (i : Nat) : Bool :=
  decide ((data.getD i default).close > rollingMaxHigh (data.map BRow.high) 20 (i - 1))

/-- Exit conditions of AdaniEnterprisesStrategy (lines 199-202):
10-day holding period or 3% stop loss. -/
def aelExit (data : List BRow) (i : Nat) (entry_price : ℚ) (entry_date : ℤ) : Bool :=
  let row := data.getD i default
  [decide (row.timestamp - entry_date ≥ 10),
   decide (row.close ≤ entry_price * 0.97)].any (fun b => b)

/-- Strategy B configuration (AdaniEnterprisesStrategy, lines 180-227):
warm-up 20, stop = 0.97×price, target = 1.12×price. -/
def aelConfig : ScanConfig BRow where
  warmup := 20
  timestamp := BRow.timestamp
  close := BRow.close
  entryCond := aelEntry
  exitCond := aelExit
  stop_loss := fun data i => (data.getD i default).close * 0.97
  take_profit := fun data i => (data.getD i default).close * 1.12
  reason := "20-day high breakout"

/-- Row of the AdaniPowerStrategy DataFrame: timestamp, close and the
SMA columns read by the scan. -/
structure CRow where
  timestamp : ℤ
  close : ℚ
  SMA_50 : ℚ
  SMA_200 : ℚ
deriving DecidableEq

instance : Inhabited CRow := ⟨⟨0, 0, 0, 0⟩⟩

/-- Golden-cross entry of AdaniPowerStrategy (lines 247-248):
SMA_50 was ≤ SMA_200 at i-1 and is > SMA_200 at i. -/
def apwGolden (data : List CRow) (i : Nat) : Bool :=
  decide ((data.getD (i - 1) default).SMA_50 ≤ (data.getD (i - 1) default).SMA_200) &&
  decide ((data.getD i default).SMA_50 > (data.getD i default).SMA_200)

/-- Death-cross exit of AdaniPowerStrategy (lines 250-251):
SMA_50 was ≥ SMA_200 at i-1 and is < SMA_200 at i. -/
def apwDeath (data : List CRow) (i : Nat) : Bool :=
  decide ((data.getD (i - 1) default).SMA_50 ≥ (data.getD (i - 1) default).SMA_200) &&
  decide ((data.getD i default).SMA_50 < (data.getD i default).SMA_200)

/-- Strategy C configuration (AdaniPowerStrategy, lines 229-275):
warm-up 200, stop = 0.94×price, target = 1.12×price; the exit predicate
ignores entry price/date. -/
def apwConfig : ScanConfig CRow where
  warmup := 200
  timestamp := CRow.timestamp
  close := CRow.close
  entryCond := apwGolden
  exitCond := fun data i _ _ => apwDeath data i
  stop_loss := fun data i => (data.getD i default).close * 0.94
  take_profit := fun data i => (data.getD i default).close * 1.12
  reason := "50/200 SMA golden cross"

/-- Breakout entry of AdaniPortsStrategy (line 310):
`close[i] > High_30[i-1]`. -/
def aptEntry (data : List BRow) (i : Nat) : Bool :=
  decide ((data.getD i default).close > rollingMaxHigh (data.map BRow.high) 30 (i - 1))

/-- Exit conditions of AdaniPortsStrategy (lines 296-299):
10-day holding period or 5% stop loss. -/
def aptExit (data : List BRow) (i : Nat) (entry_price : ℚ) (entry_date : ℤ) : Bool :=
  let row := data.getD i default
  [decide (row.timestamp - entry_date ≥ 10),
   decide (row.close ≤ entry_price * 0.95)].any (fun b => b)

/-- Strategy D configuration (AdaniPortsStrategy, lines 277-324):
warm-up 30, stop = 0.95×price, target = 1.12×price. -/
def aptConfig : ScanConfig BRow where
  warmup := 30
  timestamp := BRow.timestamp
  close := BRow.close
  entryCond := aptEntry
  exitCond := aptExit
  stop_loss := fun data i => (data.getD i default).close * 0.95
  take_profit := fun data i => (data.getD i default).close * 1.12
  reason := "30-day high breakout"

/-- The `generate_signals` method of ACCStrategy. -/
def ACCStrategy.generate_signals (data : List ARow) : List TradeSignal :=
  generateSignals accConfig data

/-- The `generate_signals` method of AdaniEnterprisesStrategy. -/
def AdaniEnterprisesStrategy.generate_signals (data : List BRow) : List TradeSignal :=
  generateSignals aelConfig data

/-- The `generate_signals` method of AdaniPowerStrategy. -/
def AdaniPowerStrategy.generate_signals (data : List CRow) : List TradeSignal :=
  generateSignals apwConfig data

/-- The `generate_signals` method of AdaniPortsStrategy. -/
def AdaniPortsStrategy.generate_signals (data : List BRow) : List TradeSignal :=
  generateSignals aptConfig data

/-- A bar as seen by `calculate_returns`: the series index value and
the close price. -/
structure Bar where
  timestamp : ℤ
  close : ℚ
deriving DecidableEq

instance : Inhabited Bar := ⟨⟨0, 0⟩⟩

def ARow.toBar (r : ARow) : Bar := ⟨r.timestamp, r.close⟩
def BRow.toBar (r : BRow) : Bar := ⟨r.timestamp, r.close⟩
def CRow.toBar (r : CRow) : Bar := ⟨r.timestamp, r.close⟩

/-- The boolean mask of BaseStrategy.calculate_returns (lines 46-48):
`(index > entry_index) & (index <= next.timestamp)` when a next signal
exists, else `(index > entry_index)`. -/
def barInMask (entry_index : ℤ) (hi : Option ℤ) (t : ℤ) : Bool :=
  match hi with
  | some h => decide (entry_index < t) && decide (t ≤ h)
  | none => decide (entry_index < t)

/-- The masked assignment `returns[mask] = (close[mask] - entry_price)
/ entry_price` (lines 52-53), applied positionally over the bar series. -/
def applyMask (bars : List Bar) (returns : List ℚ) (entry_index : ℤ) (hi : Option ℤ)
    (entry_price : ℚ) : List ℚ :=
  (bars.zip returns).map (fun p =>
    if barInMask entry_index hi p.1.timestamp then (p.1.close - entry_price) / entry_price
    else p.2)

/-- The signal loop of BaseStrategy.calculate_returns (lines 34-54),
walking the signal list with one-signal lookahead.  `position`,
`entry_price`, `entry_index` mirror the Python locals; after a
non-empty masked write, `position` is reset to 0. -/
def calcReturnsLoop (bars : List Bar) :
    List TradeSignal → List ℚ → Bool → ℚ → ℤ → List ℚ
  | [], returns, _, _, _ => returns
  | signal :: rest, returns, position, entry_price, entry_index =>
    let position1 := if signal.type = "LONG" then true else position
    let entry_price1 := if signal.type = "LONG" then signal.price else entry_price
    let entry_index1 := if signal.type = "LONG" then signal.timestamp else entry_index
    if position1 then
      let hi : Option ℤ := match rest with
        | next :: _ => some next.timestamp
        | [] => none
      if bars.any (fun b => barInMask entry_index1 hi b.timestamp) then
        calcReturnsLoop bars rest (applyMask bars returns entry_index1 hi entry_price1)
          false entry_price1 entry_index1
      else
        calcReturnsLoop bars rest returns position1 entry_price1 entry_index1
    else
      calcReturnsLoop bars rest returns position1 entry_price1 entry_index1

/-- BaseStrategy.calculate_returns (lines 26-56): a series over the
same index as the bar series, initialized to 0.0 and filled by the
signal loop.  Returned as (timestamp, value) pairs. -/
def calculate_returns (bars : List Bar) (sigs : List TradeSignal) : List (ℤ × ℚ) :=
  (bars.map Bar.timestamp).zip (calcReturnsLoop bars sigs (bars.map fun _ => (0 : ℚ)) false 0 0)

/-- Well-formedness of an emitted signal list: every signal is a LONG
and timestamps strictly increase along the list. -/
def sigsWF (sigs : List TradeSignal) : Prop :=
  (∀ s ∈ sigs, s.type = "LONG") ∧
  List.Chain' (fun s t : TradeSignal => s.timestamp < t.timestamp) sigs

instance (sigs : List TradeSignal) : Decidable (sigsWF sigs) :=
  inferInstanceAs (Decidable ((∀ s ∈ sigs, s.type = "LONG") ∧
    List.Chain' (fun s t : TradeSignal => s.timestamp < t.timestamp) sigs))

/-- Coverage test following the spec's wording for the return-series
construction: signal `s` covers bar timestamp `t` when `t` lies
strictly after `s.timestamp` and at or before the next signal's
timestamp (with no upper bound when `s` is the last signal). -/
def sigCovers (s : TradeSignal) (next : Option TradeSignal) (t : ℤ) : Bool :=
  barInMask s.timestamp (next.map TradeSignal.timestamp) t

/-- The signal whose range covers timestamp `t`, following the spec's
range description (first signal in list order whose range contains `t`). -/
def coveringSignal : List TradeSignal → ℤ → Option TradeSignal
  | [], _ => none
  | s :: rest, t => if sigCovers s rest.head? t then some s else coveringSignal rest t

/-- Value the spec's description assigns to a bar: the simple return
`(close - entry_price) / entry_price` against the covering signal's
fixed entry price, and 0.0 for a bar outside every range. -/
def returnSpecValue (sigs : List TradeSignal) (b : Bar) : ℚ :=
  match coveringSignal sigs b.timestamp with
  | some s => (b.close - s.price) / s.price
  | none => 0

/-- Before the warm-up bound the scan has processed nothing. -/
theorem scanStateAt_le_warmup [Inhabited ρ] (cfg : ScanConfig ρ) (data : List ρ)
    (i : Nat) (h : i ≤ cfg.warmup) : scanStateAt cfg data i = ScanState.init := by
  induction i with
  | zero => rfl
  | succ i ih =>
    have h1 : ¬(cfg.warmup ≤ i ∧ i < data.length) := by omega
    simp only [scanStateAt, if_neg h1]
    exact ih (by omega)

/-- A series no longer than the warm-up bound is never scanned at all. -/
theorem scanStateAt_of_short [Inhabited ρ] (cfg : ScanConfig ρ) (data : List ρ)
    (hlen : data.length ≤ cfg.warmup) (i : Nat) :
    scanStateAt cfg data i = ScanState.init := by
  induction i with
  | zero => rfl
  | succ i ih =>
    have h1 : ¬(cfg.warmup ≤ i ∧ i < data.length) := by omega
    simp only [scanStateAt, if_neg h1]
    exact ih

/-- One scan step only ever appends to the signal list. -/
theorem scanStep_signals_prefix [Inhabited ρ] (cfg : ScanConfig ρ) (data : List ρ)
    (i : Nat) (st : ScanState) :
    st.signals <+: (scanStep cfg data i st).signals := by
  unfold scanStep
  by_cases hx : (st.position_open && cfg.exitCond data i st.entry_price st.entry_date) = true
  · simp [hx]
  · simp only [if_neg hx]
    by_cases he : (!st.position_open && cfg.entryCond data i) = true
    · simp [he]
    · simp [he]

/-- The signal list accumulated by the scan grows monotonically. -/
theorem scanStateAt_signals_prefix [Inhabited ρ] (cfg : ScanConfig ρ) (data : List ρ)
    {i j : Nat} (h : i ≤ j) :
    (scanStateAt cfg data i).signals <+: (scanStateAt cfg data j).signals := by
  induction j with
  | zero =>
    have : i = 0 := by omega
    subst this; exact List.prefix_refl _
  | succ j ih =>
    rcases Nat.lt_or_ge i (j + 1) with hij | hij
    · have hpre := ih (by omega)
      refine hpre.trans ?_
      by_cases hc : cfg.warmup ≤ j ∧ j < data.length
      · simp only [scanStateAt, if_pos hc]
        exact scanStep_signals_prefix cfg data j _
      · simp only [scanStateAt, if_neg hc]
        exact List.prefix_refl _
    · have : i = j + 1 := by omega
      subst this; exact List.prefix_refl _

/-- Master invariant of the scan, tying together the state, the
transition trace, and the accumulated signals:
(1) every recorded transition is at a bar in [warmup, min i len);
(2) the trace strictly alternates, entries at even positions;
(3) a position is open iff the number of transitions is odd;
(4) the signal list is exactly the entry transitions, in order,
    instantiated by `mkEntrySignal`;
(5) an entry fires only from FLAT (with its entry predicate true) and
    an exit only from LONG_OPEN;
(6) consecutive entry bars are at least two indices apart;
(7) if a position is open, the last entry was before bar i;
(8) if no position is open, the last entry (if any) was before bar i-1. -/
theorem scan_inv [Inhabited ρ] (cfg : ScanConfig ρ) (data : List ρ) (i : Nat) :
    (∀ p ∈ scanEventsAt cfg data i, cfg.warmup ≤ p.1 ∧ p.1 < i ∧ p.1 < data.length) ∧
    ((scanEventsAt cfg data i).map Prod.snd
      = (List.range (scanEventsAt cfg data i).length).map (fun k => decide (k % 2 = 0))) ∧
    ((scanStateAt cfg data i).position_open
      = decide ((scanEventsAt cfg data i).length % 2 = 1)) ∧
    ((scanStateAt cfg data i).signals
      = (((scanEventsAt cfg data i).filter (fun p => p.2)).map Prod.fst).map
          (mkEntrySignal cfg data)) ∧
    (∀ p ∈ scanEventsAt cfg data i,
      (p.2 = true → (scanStateAt cfg data p.1).position_open = false
        ∧ cfg.entryCond data p.1 = true) ∧
      (p.2 = false → (scanStateAt cfg data p.1).position_open = true)) ∧
    (List.Chain' (fun a b => a + 2 ≤ b)
       (((scanEventsAt cfg data i).filter (fun p => p.2)).map Prod.fst)) ∧
    ((scanStateAt cfg data i).position_open = true →
       ∃ l, (((scanEventsAt cfg data i).filter (fun p => p.2)).map Prod.fst).getLast?
              = some l ∧ l + 1 ≤ i) ∧
    ((scanStateAt cfg data i).position_open = false →
       (((scanEventsAt cfg data i).filter (fun p => p.2)).map Prod.fst) = []
       ∨ ∃ l, (((scanEventsAt cfg data i).filter (fun p => p.2)).map Prod.fst).getLast?
                = some l ∧ l + 2 ≤ i) := by
  induction i with
  | zero =>
    refine ⟨by simp [scanEventsAt], by simp [scanEventsAt], by rfl, by rfl,
      by simp [scanEventsAt], by simp [scanEventsAt], ?_, ?_⟩
    · intro h; exact absurd h (by simp [scanStateAt, ScanState.init])
    · intro _; left; simp [scanEventsAt]
  | succ i ih =>
    obtain ⟨ih1, ih2, ih3, ih4, ih5, ih6, ih7, ih8⟩ := ih
    by_cases hc : cfg.warmup ≤ i ∧ i < data.length
    · by_cases hx : ((scanStateAt cfg data i).position_open
          && cfg.exitCond data i (scanStateAt cfg data i).entry_price
               (scanStateAt cfg data i).entry_date) = true
      · -- exit transition at bar i
        have hopen : (scanStateAt cfg data i).position_open = true := by
          have h := hx; rw [Bool.and_eq_true] at h; exact h.1
        have hstate : scanStateAt cfg data (i + 1)
            = { scanStateAt cfg data i with
                  position_open := false, entry_price := 0, entry_date := 0 } := by
          simp only [scanStateAt, if_pos hc, scanStep]
          rw [if_pos hx]
        have hevents : scanEventsAt cfg data (i + 1)
            = scanEventsAt cfg data i ++ [(i, false)] := by
          simp only [scanEventsAt, if_pos hc]
          rw [if_pos hx]
        have hodd : (scanEventsAt cfg data i).length % 2 = 1 := by
          have := ih3; rw [hopen] at this
          exact of_decide_eq_true this.symm
        refine ⟨?_, ?_, ?_, ?_, ?_, ?_, ?_, ?_⟩
        · intro p hp
          rw [hevents] at hp
          rcases List.mem_append.mp hp with hp | hp
          · have := ih1 p hp; exact ⟨this.1, by omega, this.2.2⟩
          · have : p = (i, false) := by simpa using hp
            subst this; exact ⟨hc.1, by omega, hc.2⟩
        · rw [hevents]
          simp only [List.map_append, List.length_append, List.length_map,
            List.length_singleton, List.map_cons, List.map_nil]
          rw [List.range_succ, List.map_append, ih2]
          have : decide ((scanEventsAt cfg data i).length % 2 = 0) = false := by
            rw [show (scanEventsAt cfg data i).length % 2 = 1 from hodd]; rfl
          simp [this]
        · rw [hstate, hevents]
          simp only [List.length_append, List.length_singleton]
          have : ((scanEventsAt cfg data i).length + 1) % 2 = 0 := by omega
          rw [this]; rfl
        · rw [hstate, hevents]
          simp only [List.filter_append]
          have : List.filter (fun p => p.2) [((i : Nat), false)] = [] := by rfl
          rw [this, List.append_nil]
          exact ih4
        · intro p hp
          rw [hevents] at hp
          rcases List.mem_append.mp hp with hp | hp
          · exact ih5 p hp
          · have : p = (i, false) := by simpa using hp
            subst this
            exact ⟨fun h => absurd h (by simp), fun _ => hopen⟩
        · rw [hevents]
          simp only [List.filter_append]
          have : List.filter (fun p => p.2) [((i : Nat), false)] = [] := by rfl
          rw [this, List.append_nil]
          exact ih6
        · intro h; rw [hstate] at h; exact absurd h (by simp)
        · intro _
          rw [hevents]
          simp only [List.filter_append]
          have hnil : List.filter (fun p => p.2) [((i : Nat), false)] = [] := by rfl
          rw [hnil, List.append_nil]
          rcases ih7 hopen with ⟨l, hl, hli⟩
          exact Or.inr ⟨l, hl, by omega⟩
      · by_cases he : (!(scanStateAt cfg data i).position_open
            && cfg.entryCond data i) = true
        · -- entry transition at bar i
          have hflat : (scanStateAt cfg data i).position_open = false := by
            have h := he; rw [Bool.and_eq_true] at h
            simpa using h.1
          have hentry : cfg.entryCond data i = true := by
            have h := he; rw [Bool.and_eq_true] at h; exact h.2
          have hstate : scanStateAt cfg data (i + 1)
              = { position_open := true,
                  entry_price := cfg.close (data.getD i default),
                  entry_date := cfg.timestamp (data.getD i default),
                  signals := (scanStateAt cfg data i).signals
                    ++ [mkEntrySignal cfg data i] } := by
            simp only [scanStateAt, if_pos hc, scanStep]
            rw [if_neg hx, if_pos he]
          have hevents : scanEventsAt cfg data (i + 1)
              = scanEventsAt cfg data i ++ [(i, true)] := by
            simp only [scanEventsAt, if_pos hc]
            rw [if_neg hx, if_pos he]
          have heven : (scanEventsAt cfg data i).length % 2 = 0 := by
            have h3 := ih3; rw [hflat] at h3
            have := of_decide_eq_false h3.symm
            omega
          refine ⟨?_, ?_, ?_, ?_, ?_, ?_, ?_, ?_⟩
          · intro p hp
            rw [hevents] at hp
            rcases List.mem_append.mp hp with hp | hp
            · have := ih1 p hp; exact ⟨this.1, by omega, this.2.2⟩
            · have : p = (i, true) := by simpa using hp
              subst this; exact ⟨hc.1, by omega, hc.2⟩
          · rw [hevents]
            simp only [List.map_append, List.length_append, List.length_map,
              List.length_singleton, List.map_cons, List.map_nil]
            rw [List.range_succ, List.map_append, ih2]
            have : decide ((scanEventsAt cfg data i).length % 2 = 0) = true := by
              rw [show (scanEventsAt cfg data i).length % 2 = 0 from heven]; rfl
            simp [this]
          · rw [hstate, hevents]
            simp only [List.length_append, List.length_singleton]
            have : ((scanEventsAt cfg data i).length + 1) % 2 = 1 := by omega
            rw [this]; rfl
          · rw [hstate, hevents]
            simp only [List.filter_append]
            have : List.filter (fun p => p.2) [((i : Nat), true)] = [(i, true)] := by rfl
            rw [this]
            simp only [List.map_append, List.map_cons, List.map_nil]
            rw [ih4]
          · intro p hp
            rw [hevents] at hp
            rcases List.mem_append.mp hp with hp | hp
            · exact ih5 p hp
            · have : p = (i, true) := by simpa using hp
              subst this
              exact ⟨fun _ => ⟨hflat, hentry⟩, fun h => absurd h (by simp)⟩
          · rw [hevents]
            simp only [List.filter_append]
            have hone : List.filter (fun p => p.2) [((i : Nat), true)] = [(i, true)] := by rfl
            rw [hone]
            simp only [List.map_append, List.map_cons, List.map_nil]
            rw [List.chain'_append]
            refine ⟨ih6, List.chain'_singleton _, ?_⟩
            intro x hxl y hy
            simp only [List.head?_cons, Option.mem_def, Option.some.injEq] at hy
            subst hy
            rcases ih8 hflat with hnil | ⟨l, hl, hli⟩
            · rw [hnil] at hxl; simp at hxl
            · rw [hl] at hxl
              simp only [Option.mem_def, Option.some.injEq] at hxl
              subst hxl; omega
          · intro _
            rw [hevents]
            simp only [List.filter_append]
            have hone : List.filter (fun p => p.2) [((i : Nat), true)] = [(i, true)] := by rfl
            rw [hone]
            simp only [List.map_append, List.map_cons, List.map_nil]
            exact ⟨i, by rw [List.getLast?_concat], by omega⟩
          · intro h; rw [hstate] at h; exact absurd h (by simp)
        · -- no transition at bar i
          have hstate : scanStateAt cfg data (i + 1) = scanStateAt cfg data i := by
            simp only [scanStateAt, if_pos hc, scanStep]
            rw [if_neg hx, if_neg he]
          have hevents : scanEventsAt cfg data (i + 1) = scanEventsAt cfg data i := by
            simp only [scanEventsAt, if_pos hc]
            rw [if_neg hx, if_neg he]
          rw [hstate, hevents]
          refine ⟨?_, ih2, ih3, ih4, ih5, ih6, ?_, ?_⟩
          · intro p hp; have := ih1 p hp; exact ⟨this.1, by omega, this.2.2⟩
          · intro h; rcases ih7 h with ⟨l, hl, hli⟩; exact ⟨l, hl, by omega⟩
          · intro h
            rcases ih8 h with hnil | ⟨l, hl, hli⟩
            · exact Or.inl hnil
            · exact Or.inr ⟨l, hl, by omega⟩
    · have hstate : scanStateAt cfg data (i + 1) = scanStateAt cfg data i := by
        simp only [scanStateAt, if_neg hc]
      have hevents : scanEventsAt cfg data (i + 1) = scanEventsAt cfg data i := by
        simp only [scanEventsAt, if_neg hc]
      rw [hstate, hevents]
      refine ⟨?_, ih2, ih3, ih4, ih5, ih6, ?_, ?_⟩
      · intro p hp; have := ih1 p hp; exact ⟨this.1, by omega, this.2.2⟩
      · intro h; rcases ih7 h with ⟨l, hl, hli⟩; exact ⟨l, hl, by omega⟩
      · intro h
        rcases ih8 h with hnil | ⟨l, hl, hli⟩
        · exact Or.inl hnil
        · exact Or.inr ⟨l, hl, by omega⟩

/-- The signal list is exactly the entry transitions, instantiated in
order. -/
theorem generateSignals_eq_entries [Inhabited ρ] (cfg : ScanConfig ρ) (data : List ρ) :
    generateSignals cfg data = (entryIndices cfg data).map (mkEntrySignal cfg data) :=
  (scan_inv cfg data data.length).2.2.2.1

/-- Membership in `entryIndices` comes from an entry transition. -/
theorem mem_entryIndices [Inhabited ρ] {cfg : ScanConfig ρ} {data : List ρ} {e : Nat}
    (h : e ∈ entryIndices cfg data) : (e, true) ∈ transitions cfg data := by
  unfold entryIndices at h
  rcases List.mem_map.mp h with ⟨p, hp, hpe⟩
  have h2 : p.2 = true := by simpa using List.of_mem_filter hp
  have hpmem := List.mem_of_mem_filter hp
  have : p = (e, true) := by
    cases p; simp_all
  rw [← this]; exact hpmem

/-- Consecutive entry bars are at least two indices apart. -/
theorem entryIndices_chain [Inhabited ρ] (cfg : ScanConfig ρ) (data : List ρ) :
    List.Chain' (fun a b => a + 2 ≤ b) (entryIndices cfg data) :=
  (scan_inv cfg data data.length).2.2.2.2.2.1

/-- A chain can be strengthened with a membership-derived predicate on
the second component. -/
theorem chain'_and_mem {α : Type} {l : List α} {P : α → Prop} (hP : ∀ e ∈ l, P e)
    {R : α → α → Prop} (hR : List.Chain' R l) :
    List.Chain' (fun a b => R a b ∧ P b) l := by
  induction l with
  | nil => simp
  | cons a l ih =>
    cases l with
    | nil => simp
    | cons b l2 =>
      rw [List.chain'_cons] at hR ⊢
      exact ⟨⟨hR.1, hP b (by simp)⟩,
        ih (fun e he => hP e (by simp [he])) hR.2⟩

/-- In a timestamp-sorted nonempty signal list, the head's timestamp is
below every later element's. -/
theorem chain'_head_lt {r : List TradeSignal} {u v : TradeSignal}
    (h : List.Chain' (fun a b : TradeSignal => a.timestamp < b.timestamp) (u :: r))
    (hv : v ∈ r) : u.timestamp < v.timestamp := by
  induction r generalizing u with
  | nil => simp at hv
  | cons w r2 ih =>
    rw [List.chain'_cons] at h
    rcases List.mem_cons.mp hv with rfl | hv2
    · exact h.1
    · exact lt_trans h.1 (ih h.2 hv2)

/-- When bar timestamps strictly increase, the emitted signal list is
well formed: all LONG, strictly increasing timestamps. -/
theorem generateSignals_sigsWF [Inhabited ρ] (cfg : ScanConfig ρ) (data : List ρ)
    (hmono : ∀ b : Nat, b < data.length → ∀ a : Nat, a < b →
      cfg.timestamp (data.getD a default) < cfg.timestamp (data.getD b default)) :
    sigsWF (generateSignals cfg data) := by
  constructor
  · intro s hs
    rw [generateSignals_eq_entries] at hs
    rcases List.mem_map.mp hs with ⟨e, _, rfl⟩
    rfl
  · rw [generateSignals_eq_entries]
    rw [List.chain'_map]
    have hlt : ∀ e ∈ entryIndices cfg data, e < data.length := by
      intro e he
      exact ((scan_inv cfg data data.length).1 _ (mem_entryIndices he)).2.2
    have h2 := chain'_and_mem hlt (entryIndices_chain cfg data)
    refine h2.imp ?_
    intro a b hab
    exact hmono b hab.2 a (by omega)

/-- Ghost form of the signal loop for all-LONG signal lists: every
signal unconditionally performs its masked write against its own
timestamp/price with one-signal lookahead. -/
def writesFrom (bars : List Bar) : List TradeSignal → List ℚ → List ℚ
  | [], returns => returns
  | s :: rest, returns =>
    writesFrom bars rest
      (applyMask bars returns s.timestamp (rest.head?.map TradeSignal.timestamp) s.price)

theorem applyMask_length (bars : List Bar) (ret : List ℚ) (lo : ℤ) (hi : Option ℤ) (p : ℚ) :
    (applyMask bars ret lo hi p).length = min bars.length ret.length := by
  simp [applyMask]

theorem writesFrom_length (bars : List Bar) :
    ∀ (sigs : List TradeSignal) (ret : List ℚ), ret.length = bars.length →
    (writesFrom bars sigs ret).length = bars.length := by
  intro sigs
  induction sigs with
  | nil => intro ret h; exact h
  | cons s rest ih =>
    intro ret h
    exact ih _ (by rw [applyMask_length, h]; omega)

theorem applyMask_getD (bars : List Bar) :
    ∀ (ret : List ℚ) (lo : ℤ) (hi : Option ℤ) (p : ℚ) (k : Nat),
    ret.length = bars.length → k < bars.length →
    (applyMask bars ret lo hi p).getD k 0
      = if barInMask lo hi ((bars.getD k default).timestamp) = true
        then ((bars.getD k default).close - p) / p else ret.getD k 0 := by
  induction bars with
  | nil => intro ret lo hi p k _ hk; simp at hk
  | cons b bs ih =>
    intro ret lo hi p k hlen hk
    cases ret with
    | nil => simp at hlen
    | cons r rs =>
      cases k with
      | zero => simp [applyMask]
      | succ k =>
        have h2 := ih rs lo hi p k (by simpa using hlen) (by simpa using hk)
        simpa [applyMask] using h2

theorem applyMask_of_none (bars : List Bar) :
    ∀ (ret : List ℚ) (lo : ℤ) (hi : Option ℤ) (p : ℚ),
    ret.length = bars.length →
    (∀ b ∈ bars, barInMask lo hi b.timestamp = false) →
    applyMask bars ret lo hi p = ret := by
  induction bars with
  | nil =>
    intro ret lo hi p hlen _
    cases ret with
    | nil => rfl
    | cons r rs => simp at hlen
  | cons b bs ih =>
    intro ret lo hi p hlen hnone
    cases ret with
    | nil => simp at hlen
    | cons r rs =>
      have hrec : applyMask (b :: bs) (r :: rs) lo hi p
          = (if barInMask lo hi b.timestamp = true then (b.close - p) / p else r)
            :: applyMask bs rs lo hi p := rfl
      rw [hrec, hnone b (by simp), if_neg (by simp)]
      rw [ih rs lo hi p (by simpa using hlen) (fun x hx => hnone x (by simp [hx]))]

/-- One-step unfolding of the signal loop at a LONG signal: the
position flag is set, entry price and index are taken from the signal,
and the masked write is performed when the mask is non-empty. -/
theorem calcReturnsLoop_cons (bars : List Bar) (s : TradeSignal) (rest : List TradeSignal)
    (ret : List ℚ) (p : Bool) (ep : ℚ) (ei : ℤ) (hs : s.type = "LONG") :
    calcReturnsLoop bars (s :: rest) ret p ep ei
      = if bars.any (fun b =>
            barInMask s.timestamp (rest.head?.map TradeSignal.timestamp) b.timestamp) then
          calcReturnsLoop bars rest
            (applyMask bars ret s.timestamp (rest.head?.map TradeSignal.timestamp) s.price)
            false s.price s.timestamp
        else calcReturnsLoop bars rest ret true s.price s.timestamp := by
  cases rest with
  | nil => simp [calcReturnsLoop, hs]
  | cons n r2 => simp [calcReturnsLoop, hs]

/-- On an all-LONG signal list, the signal loop is the chain of masked
writes: the `position` flag is re-set to 1 by every signal, and a
skipped empty write is a no-op. -/
theorem calcReturnsLoop_eq_writesFrom (bars : List Bar) :
    ∀ (sigs : List TradeSignal), (∀ s ∈ sigs, s.type = "LONG") →
    ∀ (ret : List ℚ) (p : Bool) (ep : ℚ) (ei : ℤ), ret.length = bars.length →
    calcReturnsLoop bars sigs ret p ep ei = writesFrom bars sigs ret := by
  intro sigs
  induction sigs with
  | nil => intro _ ret p ep ei _; rfl
  | cons s rest ih =>
    intro hlong ret p ep ei hlen
    have hs : s.type = "LONG" := hlong s (by simp)
    have hrest : ∀ x ∈ rest, x.type = "LONG" := fun x hx => hlong x (by simp [hx])
    rw [calcReturnsLoop_cons bars s rest ret p ep ei hs]
    by_cases hany :
        (bars.any fun b =>
          barInMask s.timestamp (rest.head?.map TradeSignal.timestamp) b.timestamp) = true
    · rw [if_pos hany]
      rw [ih hrest _ _ _ _ (by rw [applyMask_length, hlen]; omega)]
      rfl
    · rw [if_neg hany]
      rw [ih hrest _ _ _ _ hlen]
      have hnone : ∀ b ∈ bars,
          barInMask s.timestamp (rest.head?.map TradeSignal.timestamp) b.timestamp = false := by
        intro b hb
        by_contra hcontra
        rw [Bool.not_eq_false] at hcontra
        exact hany (List.any_eq_true.mpr ⟨b, hb, hcontra⟩)
      show writesFrom bars rest ret
          = writesFrom bars rest
              (applyMask bars ret s.timestamp (rest.head?.map TradeSignal.timestamp) s.price)
      rw [applyMask_of_none bars ret _ _ _ hlen hnone]

/-- Propositional reading of `sigCovers`. -/
theorem sigCovers_iff (s : TradeSignal) (next : Option TradeSignal) (t : ℤ) :
    sigCovers s next t = true
      ↔ (s.timestamp < t ∧ ∀ s2 ∈ next, t ≤ s2.timestamp) := by
  unfold sigCovers barInMask
  cases next with
  | none => simp
  | some u => simp [Option.mem_def]

/-- A signal whose timestamp is not below `t` covers nothing at `t`. -/
theorem coveringSignal_none_of_all (sigs : List TradeSignal) (t : ℤ)
    (h : ∀ v ∈ sigs, ¬(v.timestamp < t)) : coveringSignal sigs t = none := by
  induction sigs with
  | nil => rfl
  | cons v r ih =>
    have hv : sigCovers v r.head? t = false := by
      rw [Bool.eq_false_iff]
      intro hcontra
      exact h v (by simp) ((sigCovers_iff _ _ _).mp hcontra).1
    simp only [coveringSignal, hv, Bool.false_eq_true, if_false]
    exact ih (fun u hu => h u (by simp [hu]))

/-- In a sorted signal list, once the head covers `t` no later signal
does. -/
theorem coveringSignal_none_of_head (s : TradeSignal) (rest : List TradeSignal) (t : ℤ)
    (hchain : List.Chain' (fun a b : TradeSignal => a.timestamp < b.timestamp) (s :: rest))
    (hc : sigCovers s rest.head? t = true) :
    coveringSignal rest t = none := by
  cases rest with
  | nil => rfl
  | cons u r2 =>
    have hcp := (sigCovers_iff _ _ _).mp hc
    have htu : t ≤ u.timestamp := hcp.2 u (by simp)
    refine coveringSignal_none_of_all _ _ ?_
    intro v hv
    have huv : u.timestamp ≤ v.timestamp := by
      rcases List.mem_cons.mp hv with rfl | hv2
      · exact le_refl _
      · exact le_of_lt (chain'_head_lt hchain.tail hv2)
    omega

/-- Pointwise value of the chained masked writes over a sorted signal
list: the covering signal's return, or the incoming value if no signal
covers the bar. -/
theorem writesFrom_getD (bars : List Bar) :
    ∀ (sigs : List TradeSignal),
    List.Chain' (fun a b : TradeSignal => a.timestamp < b.timestamp) sigs →
    ∀ (ret : List ℚ), ret.length = bars.length → ∀ k, k < bars.length →
    (writesFrom bars sigs ret).getD k 0
      = match coveringSignal sigs ((bars.getD k default).timestamp) with
        | some s => ((bars.getD k default).close - s.price) / s.price
        | none => ret.getD k 0 := by
  intro sigs
  induction sigs with
  | nil => intro _ ret _ k _; rfl
  | cons s rest ih =>
    intro hchain ret hlen k hk
    have hlen2 : (applyMask bars ret s.timestamp
        (rest.head?.map TradeSignal.timestamp) s.price).length = bars.length := by
      rw [applyMask_length, hlen]; omega
    have hrec : writesFrom bars (s :: rest) ret
        = writesFrom bars rest
            (applyMask bars ret s.timestamp (rest.head?.map TradeSignal.timestamp) s.price) :=
      rfl
    rw [hrec, ih hchain.tail _ hlen2 k hk]
    by_cases hcov : sigCovers s rest.head? ((bars.getD k default).timestamp) = true
    · rw [coveringSignal_none_of_head s rest _ hchain hcov]
      have hcv : coveringSignal (s :: rest) ((bars.getD k default).timestamp) = some s := by
        simp only [coveringSignal, hcov, if_true]
      rw [hcv]
      rw [applyMask_getD bars ret _ _ _ k hlen hk]
      have : barInMask s.timestamp (rest.head?.map TradeSignal.timestamp)
          ((bars.getD k default).timestamp) = true := hcov
      rw [if_pos this]
    · have hcov' : sigCovers s rest.head? ((bars.getD k default).timestamp) = false := by
        simpa using hcov
      have hcv : coveringSignal (s :: rest) ((bars.getD k default).timestamp)
          = coveringSignal rest ((bars.getD k default).timestamp) := by
        simp only [coveringSignal, hcov', Bool.false_eq_true, if_false]
      rw [hcv]
      cases hX : coveringSignal rest ((bars.getD k default).timestamp) with
      | some u => rfl
      | none =>
        rw [applyMask_getD bars ret _ _ _ k hlen hk]
        have hmask : barInMask s.timestamp (rest.head?.map TradeSignal.timestamp)
            ((bars.getD k default).timestamp) = false := hcov'
        have hcond : ¬(barInMask s.timestamp (rest.head?.map TradeSignal.timestamp)
            ((bars.getD k default).timestamp) = true) := by
          rw [hmask]; simp
        rw [if_neg hcond]

/-- Lists of equal length that agree at every `getD` position are equal. -/
theorem list_ext_getD {α : Type} (d : α) :
    ∀ (l1 l2 : List α), l1.length = l2.length →
    (∀ k, k < l1.length → l1.getD k d = l2.getD k d) → l1 = l2 := by
  intro l1
  induction l1 with
  | nil =>
    intro l2 h _
    cases l2 with
    | nil => rfl
    | cons b l2' => simp at h
  | cons a l ih =>
    intro l2 h hk
    cases l2 with
    | nil => simp at h
    | cons b l2' =>
      have h0 : a = b := by simpa using hk 0 (by simp)
      have htail : l = l2' := by
        refine ih l2' (by simpa using h) ?_
        intro k hk2
        simpa using hk (k + 1) (by simpa using Nat.succ_lt_succ hk2)
      rw [h0, htail]

/-- `getD` through `map` at an in-range index. -/
theorem getD_map_lt {α β : Type} (f : α → β) (d : β) (d0 : α) :
    ∀ (l : List α) (k : Nat), k < l.length → (l.map f).getD k d = f (l.getD k d0) := by
  intro l
  induction l with
  | nil => intro k hk; simp at hk
  | cons a l2 ih =>
    intro k hk
    cases k with
    | zero => rfl
    | succ k => simpa using ih k (by simpa using hk)

/-- For a well-formed signal list the whole loop computes, bar by bar,
the spec's return value. -/
theorem calcReturnsLoop_spec (bars : List Bar) (sigs : List TradeSignal) (hwf : sigsWF sigs) :
    calcReturnsLoop bars sigs (bars.map fun _ => (0 : ℚ)) false 0 0
      = bars.map (fun b => returnSpecValue sigs b) := by
  rw [calcReturnsLoop_eq_writesFrom bars sigs hwf.1 _ _ _ _ (by simp)]
  refine list_ext_getD 0 _ _ ?_ ?_
  · rw [writesFrom_length bars sigs _ (by simp)]
    simp
  · intro k hk
    have hk2 : k < bars.length := by
      rw [writesFrom_length bars sigs _ (by simp)] at hk
      exact hk
    have hR : (List.map (fun b => returnSpecValue sigs b) bars).getD k 0
        = returnSpecValue sigs (bars.getD k default) :=
      getD_map_lt (fun b => returnSpecValue sigs b) 0 default bars k hk2
    rw [writesFrom_getD bars sigs hwf.2 _ (by simp) k hk2, hR]
    unfold returnSpecValue
    cases hX : coveringSignal sigs ((bars.getD k default).timestamp) with
    | some s => rfl
    | none => exact getD_map_lt (fun _ => (0 : ℚ)) 0 default bars k hk2

/-- Main characterization of `calculate_returns` for well-formed
signal lists: same index as the bar series, and every bar carries the
spec's return value. -/
theorem calculate_returns_spec (bars : List Bar) (sigs : List TradeSignal) (hwf : sigsWF sigs) :
    calculate_returns bars sigs
      = bars.map (fun b => (b.timestamp, returnSpecValue sigs b)) := by
  unfold calculate_returns
  rw [calcReturnsLoop_spec bars sigs hwf]
  exact List.zip_map' Bar.timestamp (fun b => returnSpecValue sigs b) bars

/-- In a sorted signal list, the covering signal of `t` is the unique
decomposition point whose range contains `t`. -/
theorem coveringSignal_of_decomp :
    ∀ (pre : List TradeSignal) (s : TradeSignal) (post : List TradeSignal) (t : ℤ),
    List.Chain' (fun a b : TradeSignal => a.timestamp < b.timestamp) (pre ++ s :: post) →
    sigCovers s post.head? t = true →
    coveringSignal (pre ++ s :: post) t = some s := by
  intro pre
  induction pre with
  | nil =>
    intro s post t _ hc
    simp only [List.nil_append, coveringSignal, hc, if_true]
  | cons p pre' ih =>
    intro s post t hchain hc
    have hslt : s.timestamp < t := ((sigCovers_iff _ _ _).mp hc).1
    obtain ⟨u, tl2, htl⟩ : ∃ u tl2, pre' ++ s :: post = u :: tl2 := by
      cases pre' with
      | nil => exact ⟨s, post, by simp⟩
      | cons x xs => exact ⟨x, xs ++ s :: post, by simp⟩
    have hchain2 : List.Chain' (fun a b : TradeSignal => a.timestamp < b.timestamp)
        (p :: (pre' ++ s :: post)) := hchain
    have htail : List.Chain' (fun a b : TradeSignal => a.timestamp < b.timestamp)
        (u :: tl2) := by
      rw [htl] at hchain2
      exact hchain2.tail
    have hus : u.timestamp ≤ s.timestamp := by
      have hsmem : s ∈ u :: tl2 := by
        rw [← htl]
        exact List.mem_append_right _ (by simp)
      rcases List.mem_cons.mp hsmem with rfl | hs2
      · exact le_refl _
      · exact le_of_lt (chain'_head_lt htail hs2)
    have hp : sigCovers p (pre' ++ s :: post).head? t = false := by
      rw [htl]
      rw [Bool.eq_false_iff]
      intro hcontra
      have := ((sigCovers_iff _ _ _).mp hcontra).2 u (by simp)
      omega
    have hcons : coveringSignal (p :: (pre' ++ s :: post)) t
        = if sigCovers p (pre' ++ s :: post).head? t = true then some p
          else coveringSignal (pre' ++ s :: post) t := rfl
    have hunfold : coveringSignal ((p :: pre') ++ s :: post) t
        = coveringSignal (pre' ++ s :: post) t := by
      rw [List.cons_append, hcons, hp]
      simp
    rw [hunfold]
    exact ih s post t hchain.tail hc

/-- A bar covered by no signal's range keeps the default value 0. -/
theorem returnSpecValue_of_uncovered (sigs : List TradeSignal) (b : Bar)
    (h : ∀ (pre post : List TradeSignal) (s : TradeSignal), sigs = pre ++ s :: post →
      ¬(s.timestamp < b.timestamp ∧ ∀ s2 ∈ post.head?, b.timestamp ≤ s2.timestamp)) :
    returnSpecValue sigs b = 0 := by
  unfold returnSpecValue
  have hnone : coveringSignal sigs b.timestamp = none := by
    induction sigs with
    | nil => rfl
    | cons s rest ih =>
      have hs : sigCovers s rest.head? b.timestamp = false := by
        rw [Bool.eq_false_iff]
        intro hcontra
        exact h [] rest s rfl ((sigCovers_iff _ _ _).mp hcontra)
      simp only [coveringSignal, hs, Bool.false_eq_true, if_false]
      exact ih (fun pre post s2 hdec hrange =>
        h (s :: pre) post s2 (by rw [hdec]; rfl) hrange)
  rw [hnone]

/-- Concrete breakout-strategy series shared by several witnesses:
20 flat bars, a breakout close at bar index 20 (price 11 above the
rolling high 10), and a 3%-plus drop at bar index 21 (close 10 ≤
11 × 0.97), so the run has one entry at bar 20 and one exit at bar 21. -/
def exBreak : List BRow :=
  (List.range 20).map (fun k => ⟨(k : ℤ), 10, 10⟩) ++ [⟨20, 11, 11⟩, ⟨21, 10, 10⟩]

/-- Concrete bar series for the C1 witness. -/
def exC1Bars : List Bar := [⟨1, 100⟩, ⟨2, 110⟩, ⟨3, 120⟩, ⟨4, 90⟩]

/-- Concrete well-formed signal list for the C1 witness. -/
def exC1Sigs : List TradeSignal :=
  [⟨1, "LONG", 100, 98, 104, "a"⟩, ⟨3, "LONG", 120, 117, 125, "b"⟩]

/-- C1: for every well-formed signal list (every strategy's output over
an ordered bar series is one, last conjunct), `calculate_returns`
returns a series with exactly the same timestamp index as the bar
series; a bar in the range strictly after a LONG signal's timestamp
and at or before its successor's timestamp (unbounded for the last
signal) carries the simple return `(close − entry_price)/entry_price`
against that signal's fixed entry price, and a bar outside all such
ranges carries 0.0. -/
theorem c1_calculate_returns_range_characterization :
    (∀ (bars : List Bar) (sigs : List TradeSignal), sigsWF sigs →
      calculate_returns bars sigs
        = bars.map (fun b => (b.timestamp, returnSpecValue sigs b))) ∧
    (∀ (sigs : List TradeSignal), sigsWF sigs →
      ∀ (pre post : List TradeSignal) (s : TradeSignal), sigs = pre ++ s :: post →
      ∀ b : Bar, s.timestamp < b.timestamp →
        (∀ s2 ∈ post.head?, b.timestamp ≤ s2.timestamp) →
        returnSpecValue sigs b = (b.close - s.price) / s.price) ∧
    (∀ (sigs : List TradeSignal) (b : Bar),
      (∀ (pre post : List TradeSignal) (s : TradeSignal), sigs = pre ++ s :: post →
        ¬(s.timestamp < b.timestamp ∧ ∀ s2 ∈ post.head?, b.timestamp ≤ s2.timestamp)) →
      returnSpecValue sigs b = 0) ∧
    (∀ (ρ : Type) (inst : Inhabited ρ) (cfg : ScanConfig ρ) (data : List ρ),
      (∀ b : Nat, b < data.length → ∀ a : Nat, a < b →
        cfg.timestamp (data.getD a default) < cfg.timestamp (data.getD b default)) →
      sigsWF (generateSignals cfg data)) := by
  refine ⟨calculate_returns_spec, ?_, returnSpecValue_of_uncovered, ?_⟩
  · intro sigs hwf pre post s hdec b h1 h2
    have hcov : sigCovers s post.head? b.timestamp = true :=
      (sigCovers_iff _ _ _).mpr ⟨h1, h2⟩
    have hchain := hwf.2
    rw [hdec] at hchain
    unfold returnSpecValue
    rw [hdec, coveringSignal_of_decomp pre s post b.timestamp hchain hcov]
  · intro ρ inst cfg data hmono
    exact generateSignals_sigsWF cfg data hmono

/-- C1 witness: the characterization evaluated on a concrete bar
series and signal list, and well-formedness of a concrete strategy
run. -/
theorem c1_witness :
    calculate_returns exC1Bars exC1Sigs
      = exC1Bars.map (fun b => (b.timestamp, returnSpecValue exC1Sigs b)) ∧
    sigsWF (generateSignals aelConfig exBreak) :=
  ⟨c1_calculate_returns_range_characterization.1 exC1Bars exC1Sigs
      ⟨by decide, by simp [exC1Sigs]⟩,
   c1_calculate_returns_range_characterization.2.2.2 BRow inferInstance aelConfig exBreak
     (by decide)⟩

/-- C2: the position state strictly alternates FLAT/LONG_OPEN along
the transition trace: entries sit exactly at the even positions, an
entry fires only when no position is open, and between any two entry
transitions there is an intervening exit transition. -/
theorem c2_alternating_state (ρ : Type) (inst : Inhabited ρ) (cfg : ScanConfig ρ)
    (data : List ρ) :
    ((transitions cfg data).map Prod.snd
      = (List.range (transitions cfg data).length).map (fun k => decide (k % 2 = 0))) ∧
    (∀ p ∈ transitions cfg data, p.2 = true →
      (scanStateAt cfg data p.1).position_open = false) ∧
    (∀ (k1 k2 : Nat) (h1 : k1 < (transitions cfg data).length)
        (h2 : k2 < (transitions cfg data).length), k1 < k2 →
      ((transitions cfg data)[k1]).2 = true →
      ((transitions cfg data)[k2]).2 = true →
      ∃ hm : k1 + 1 < (transitions cfg data).length,
        k1 + 1 < k2 ∧ ((transitions cfg data)[k1 + 1]).2 = false) := by
  have hmap : (transitions cfg data).map Prod.snd
      = (List.range (transitions cfg data).length).map (fun k => decide (k % 2 = 0)) :=
    (scan_inv cfg data data.length).2.1
  have hval : ∀ (k : Nat) (hk : k < (transitions cfg data).length),
      ((transitions cfg data)[k]).2 = decide (k % 2 = 0) := by
    intro k hk
    have h2 : ((transitions cfg data).map Prod.snd).getD k false
        = ((List.range (transitions cfg data).length).map
            (fun k => decide (k % 2 = 0))).getD k false := by
      rw [hmap]
    rw [getD_map_lt Prod.snd false ((0 : Nat), false) _ k hk] at h2
    rw [getD_map_lt (fun k => decide (k % 2 = 0)) false 0 _ k (by simpa using hk)] at h2
    have hrange : (List.range (transitions cfg data).length).getD k 0 = k := by
      rw [List.getD_eq_getElem _ _ (by simpa using hk)]
      exact List.getElem_range _ _
    rw [hrange] at h2
    rw [List.getD_eq_getElem _ _ hk] at h2
    exact h2
  refine ⟨hmap, ?_, ?_⟩
  · intro p hp ht
    exact (((scan_inv cfg data data.length).2.2.2.2.1 p hp).1 ht).1
  · intro k1 k2 h1 h2 hlt he1 he2
    have hv1 := hval k1 h1
    have hv2 := hval k2 h2
    rw [he1] at hv1
    rw [he2] at hv2
    have hk1 : k1 % 2 = 0 := of_decide_eq_true hv1.symm
    have hk2 : k2 % 2 = 0 := of_decide_eq_true hv2.symm
    have hm : k1 + 1 < (transitions cfg data).length := by omega
    refine ⟨hm, by omega, ?_⟩
    have hv3 := hval (k1 + 1) hm
    rw [hv3, show (k1 + 1) % 2 = 1 from by omega]
    rfl

/-- C2 witness: an entry transition of a concrete run fires from the
FLAT state. -/
theorem c2_witness : (scanStateAt aelConfig exBreak 20).position_open = false :=
  (c2_alternating_state BRow inferInstance aelConfig exBreak).2.1 (20, true)
    (by decide) rfl

/-- C9: every signal emitted by a strategy scan has type 'LONG'; a
signal of type 'SHORT' is never produced. -/
theorem c9_all_signals_long (ρ : Type) (inst : Inhabited ρ) (cfg : ScanConfig ρ)
    (data : List ρ) :
    ∀ s ∈ generateSignals cfg data, s.type = "LONG" ∧ s.type ≠ "SHORT" := by
  intro s hs
  rw [generateSignals_eq_entries] at hs
  rcases List.mem_map.mp hs with ⟨e, _, rfl⟩
  refine ⟨rfl, ?_⟩
  intro h
  rw [show (mkEntrySignal cfg data e).type = "LONG" from rfl] at h
  exact absurd h (by decide)

/-- C9 witness: the signal emitted by a concrete breakout run is a
LONG and not a SHORT. -/
theorem c9_witness :
    (⟨20, "LONG", 11, 11 * 0.97, 11 * 1.12, "20-day high breakout"⟩ : TradeSignal).type
        = "LONG"
    ∧ (⟨20, "LONG", 11, 11 * 0.97, 11 * 1.12, "20-day high breakout"⟩ : TradeSignal).type
        ≠ "SHORT" :=
  c9_all_signals_long BRow inferInstance aelConfig exBreak
    ⟨20, "LONG", 11, 11 * 0.97, 11 * 1.12, "20-day high breakout"⟩ (by decide)

/-- C10: the emitted signals are exactly the entry transitions in
order; consecutive entry bars are at least two bar indices apart (the
bar that closes a position is skipped for entry evaluation); and no
bar hosting an exit transition also hosts an entry. -/
theorem c10_entry_spacing (ρ : Type) (inst : Inhabited ρ) (cfg : ScanConfig ρ)
    (data : List ρ) :
    generateSignals cfg data = (entryIndices cfg data).map (mkEntrySignal cfg data) ∧
    List.Chain' (fun a b => a + 2 ≤ b) (entryIndices cfg data) ∧
    (∀ p ∈ transitions cfg data, p.2 = false → p.1 ∉ entryIndices cfg data) := by
  refine ⟨generateSignals_eq_entries cfg data, entryIndices_chain cfg data, ?_⟩
  intro p hp hexit he
  have hopen := ((scan_inv cfg data data.length).2.2.2.2.1 p hp).2 hexit
  have hflat :=
    (((scan_inv cfg data data.length).2.2.2.2.1 _ (mem_entryIndices he)).1 rfl).1
  rw [hopen] at hflat
  exact absurd hflat (by simp)

/-- C10 witness: in the concrete breakout run the exit bar 21 is not
an entry bar. -/
theorem c10_witness : (21 : Nat) ∉ entryIndices aelConfig exBreak :=
  (c10_entry_spacing BRow inferInstance aelConfig exBreak).2.2 (21, false) (by decide) rfl

/-- A series no longer than the warm-up bound produces no signals. -/
theorem generateSignals_of_short [Inhabited ρ] (cfg : ScanConfig ρ) (data : List ρ)
    (h : data.length ≤ cfg.warmup) : generateSignals cfg data = [] := by
  unfold generateSignals
  rw [scanStateAt_of_short cfg data h]
  rfl

/-- With an empty signal list the loop never writes: the result is the
all-zero series over the bar index. -/
theorem calculate_returns_nil (bars : List Bar) :
    calculate_returns bars [] = bars.map (fun b => (b.timestamp, (0 : ℚ))) := by
  show (bars.map Bar.timestamp).zip (bars.map fun _ => (0 : ℚ)) = _
  exact List.zip_map' _ _ bars

/-- C3: a bar series shorter than the warm-up window (201 bars for
strategies A and C, 21 for B, 31 for D) yields an empty signal list
with no error, and the subsequent `calculate_returns` is the all-zero
series over the same timestamp index. -/
theorem c3_short_series_empty (a : List ARow) (b : List BRow) (c : List CRow)
    (d : List BRow) (ha : a.length < 201) (hb : b.length < 21) (hc : c.length < 201)
    (hd : d.length < 31) :
    ACCStrategy.generate_signals a = [] ∧
    AdaniEnterprisesStrategy.generate_signals b = [] ∧
    AdaniPowerStrategy.generate_signals c = [] ∧
    AdaniPortsStrategy.generate_signals d = [] ∧
    calculate_returns (a.map ARow.toBar) (ACCStrategy.generate_signals a)
      = (a.map ARow.toBar).map (fun bar => (bar.timestamp, 0)) ∧
    calculate_returns (b.map BRow.toBar) (AdaniEnterprisesStrategy.generate_signals b)
      = (b.map BRow.toBar).map (fun bar => (bar.timestamp, 0)) ∧
    calculate_returns (c.map CRow.toBar) (AdaniPowerStrategy.generate_signals c)
      = (c.map CRow.toBar).map (fun bar => (bar.timestamp, 0)) ∧
    calculate_returns (d.map BRow.toBar) (AdaniPortsStrategy.generate_signals d)
      = (d.map BRow.toBar).map (fun bar => (bar.timestamp, 0)) := by
  have hA : ACCStrategy.generate_signals a = [] :=
    generateSignals_of_short accConfig a (Nat.lt_succ_iff.mp ha)
  have hB : AdaniEnterprisesStrategy.generate_signals b = [] :=
    generateSignals_of_short aelConfig b (Nat.lt_succ_iff.mp hb)
  have hC : AdaniPowerStrategy.generate_signals c = [] :=
    generateSignals_of_short apwConfig c (Nat.lt_succ_iff.mp hc)
  have hD : AdaniPortsStrategy.generate_signals d = [] :=
    generateSignals_of_short aptConfig d (Nat.lt_succ_iff.mp hd)
  refine ⟨hA, hB, hC, hD, ?_, ?_, ?_, ?_⟩
  · rw [hA]; exact calculate_returns_nil _
  · rw [hB]; exact calculate_returns_nil _
  · rw [hC]; exact calculate_returns_nil _
  · rw [hD]; exact calculate_returns_nil _

/-- C3 witness: single-bar series for each of the four strategies. -/
theorem c3_witness :
    ACCStrategy.generate_signals [(default : ARow)] = [] ∧
    AdaniEnterprisesStrategy.generate_signals [(default : BRow)] = [] ∧
    AdaniPowerStrategy.generate_signals [(default : CRow)] = [] ∧
    AdaniPortsStrategy.generate_signals [(default : BRow)] = [] ∧
    calculate_returns ([(default : ARow)].map ARow.toBar)
        (ACCStrategy.generate_signals [(default : ARow)])
      = ([(default : ARow)].map ARow.toBar).map (fun bar => (bar.timestamp, 0)) ∧
    calculate_returns ([(default : BRow)].map BRow.toBar)
        (AdaniEnterprisesStrategy.generate_signals [(default : BRow)])
      = ([(default : BRow)].map BRow.toBar).map (fun bar => (bar.timestamp, 0)) ∧
    calculate_returns ([(default : CRow)].map CRow.toBar)
        (AdaniPowerStrategy.generate_signals [(default : CRow)])
      = ([(default : CRow)].map CRow.toBar).map (fun bar => (bar.timestamp, 0)) ∧
    calculate_returns ([(default : BRow)].map BRow.toBar)
        (AdaniPortsStrategy.generate_signals [(default : BRow)])
      = ([(default : BRow)].map BRow.toBar).map (fun bar => (bar.timestamp, 0)) :=
  c3_short_series_empty [default] [default] [default] [default]
    (by decide) (by decide) (by decide) (by decide)

/-- Strategy-instance state: the prepared data and the `signals`
attribute; `generate_signals` stores its result in `self.signals`
(line 177), `calculate_returns` reads `self.signals` and `self.data`
and stores nothing. -/
structure StrategyState (ρ : Type) where
  data : List ρ
  signals : List TradeSignal

/-- The `generate_signals` method as a state transformer: the output
is recomputed from `self.data` alone, then stored on the instance. -/
def generate_signals_method [Inhabited ρ] (cfg : ScanConfig ρ) (inst : StrategyState ρ) :
    List TradeSignal × StrategyState ρ :=
  (generateSignals cfg inst.data, { inst with signals := generateSignals cfg inst.data })

/-- The `calculate_returns` method as a state transformer: computed
from `self.data` and `self.signals`; the instance is unchanged. -/
def calculate_returns_method (toB : ρ → Bar) (inst : StrategyState ρ) :
    List (ℤ × ℚ) × StrategyState ρ :=
  (calculate_returns (inst.data.map toB) inst.signals, inst)

/-- C8: on an instance whose bar series is not modified between calls,
calling `generate_signals` twice yields identical signal lists and
calling `calculate_returns` twice yields identical return series; the
first method leaves the data untouched and the second mutates nothing. -/
theorem c8_idempotent (ρ : Type) (inst0 : Inhabited ρ) (cfg : ScanConfig ρ)
    (toB : ρ → Bar) (inst : StrategyState ρ) :
    (generate_signals_method cfg (generate_signals_method cfg inst).2).1
      = (generate_signals_method cfg inst).1 ∧
    (calculate_returns_method toB (calculate_returns_method toB inst).2).1
      = (calculate_returns_method toB inst).1 ∧
    (generate_signals_method cfg inst).2.data = inst.data ∧
    (calculate_returns_method toB inst).2 = inst :=
  ⟨rfl, rfl, rfl, rfl⟩

/-- Scan invariance under replacement of the stop/target formulas:
the position state, entry price/date, transition trace, and the
(timestamp, type, price) projection of the signal list are unchanged
at every step, since the scan never reads the recorded stop/target
fields. -/
theorem scan_stop_target_invariant [Inhabited ρ] (cfg : ScanConfig ρ)
    (sl tp : List ρ → Nat → ℚ) (data : List ρ) (i : Nat) :
    (scanStateAt { cfg with stop_loss := sl, take_profit := tp } data i).position_open
      = (scanStateAt cfg data i).position_open ∧
    (scanStateAt { cfg with stop_loss := sl, take_profit := tp } data i).entry_price
      = (scanStateAt cfg data i).entry_price ∧
    (scanStateAt { cfg with stop_loss := sl, take_profit := tp } data i).entry_date
      = (scanStateAt cfg data i).entry_date ∧
    (scanStateAt { cfg with stop_loss := sl, take_profit := tp } data i).signals.map
        (fun s => (s.timestamp, s.type, s.price))
      = (scanStateAt cfg data i).signals.map (fun s => (s.timestamp, s.type, s.price)) ∧
    scanEventsAt { cfg with stop_loss := sl, take_profit := tp } data i
      = scanEventsAt cfg data i := by
  induction i with
  | zero => exact ⟨rfl, rfl, rfl, rfl, rfl⟩
  | succ i ih =>
    obtain ⟨ihp, ihep, ihed, ihsig, ihev⟩ := ih
    by_cases hc : cfg.warmup ≤ i ∧ i < data.length
    · have hc2 : ScanConfig.warmup { cfg with stop_loss := sl, take_profit := tp } ≤ i
          ∧ i < data.length := hc
      by_cases hx : ((scanStateAt cfg data i).position_open
          && cfg.exitCond data i (scanStateAt cfg data i).entry_price
               (scanStateAt cfg data i).entry_date) = true
      · have hx2 : ((scanStateAt { cfg with stop_loss := sl, take_profit := tp } data i).position_open
            && ScanConfig.exitCond { cfg with stop_loss := sl, take_profit := tp } data i
                 (scanStateAt { cfg with stop_loss := sl, take_profit := tp } data i).entry_price
                 (scanStateAt { cfg with stop_loss := sl, take_profit := tp } data i).entry_date) = true := by
          rw [ihp, ihep, ihed]; exact hx
        refine ⟨?_, ?_, ?_, ?_, ?_⟩ <;>
          simp only [scanStateAt, scanEventsAt, if_pos hc, if_pos hc2, scanStep,
            if_pos hx, if_pos hx2]
        · exact ihsig
        · rw [ihev]
      · have hx2 : ¬((scanStateAt { cfg with stop_loss := sl, take_profit := tp } data i).position_open
            && ScanConfig.exitCond { cfg with stop_loss := sl, take_profit := tp } data i
                 (scanStateAt { cfg with stop_loss := sl, take_profit := tp } data i).entry_price
                 (scanStateAt { cfg with stop_loss := sl, take_profit := tp } data i).entry_date) = true := by
          rw [ihp, ihep, ihed]; exact hx
        by_cases he : (!(scanStateAt cfg data i).position_open && cfg.entryCond data i) = true
        · have he2 : (!(scanStateAt { cfg with stop_loss := sl, take_profit := tp } data i).position_open
              && ScanConfig.entryCond { cfg with stop_loss := sl, take_profit := tp } data i) = true := by
            rw [ihp]; exact he
          refine ⟨?_, ?_, ?_, ?_, ?_⟩ <;>
            simp only [scanStateAt, scanEventsAt, if_pos hc, if_pos hc2, scanStep,
              if_neg hx, if_neg hx2, if_pos he, if_pos he2]
          · rw [List.map_append, List.map_append, ihsig]
            rfl
          · rw [ihev]
        · have he2 : ¬(!(scanStateAt { cfg with stop_loss := sl, take_profit := tp } data i).position_open
              && ScanConfig.entryCond { cfg with stop_loss := sl, take_profit := tp } data i) = true := by
            rw [ihp]; exact he
          refine ⟨?_, ?_, ?_, ?_, ?_⟩ <;>
            simp only [scanStateAt, scanEventsAt, if_pos hc, if_pos hc2, scanStep,
              if_neg hx, if_neg hx2, if_neg he, if_neg he2]
          · exact ihp
          · exact ihep
          · exact ihed
          · exact ihsig
          · exact ihev
    · have hc2 : ¬(ScanConfig.warmup { cfg with stop_loss := sl, take_profit := tp } ≤ i
          ∧ i < data.length) := hc
      refine ⟨?_, ?_, ?_, ?_, ?_⟩ <;>
        simp only [scanStateAt, scanEventsAt, if_neg hc, if_neg hc2]
      · exact ihp
      · exact ihep
      · exact ihed
      · exact ihsig
      · exact ihev

/-- C4: the stop_loss and take_profit values recorded on emitted
signals are never consulted by the scan: replacing the stop/target
formulas by arbitrary other ones leaves the transition trace and the
timestamps (and types and prices) of all emitted signals unchanged. -/
theorem c4_stop_target_never_consulted (ρ : Type) (inst : Inhabited ρ)
    (cfg : ScanConfig ρ) (sl tp : List ρ → Nat → ℚ) (data : List ρ) :
    transitions { cfg with stop_loss := sl, take_profit := tp } data
      = transitions cfg data ∧
    (generateSignals { cfg with stop_loss := sl, take_profit := tp } data).map
        (fun s => (s.timestamp, s.type, s.price))
      = (generateSignals cfg data).map (fun s => (s.timestamp, s.type, s.price)) :=
  ⟨(scan_stop_target_invariant cfg sl tp data data.length).2.2.2.2,
   (scan_stop_target_invariant cfg sl tp data data.length).2.2.2.1⟩

/-- C5: Strategy B — when the close of the 21st bar (index 20) exceeds
the trailing 20-bar rolling high through the 20th bar (indices 0-19)
and no position is open there, `generate_signals` emits its first
signal at that bar: a LONG with price = close, stop_loss =
close × 0.97 and take_profit = close × 1.12. -/
theorem c5_breakout_entry (data : List BRow) (hlen : 20 < data.length)
    (hflat : (scanStateAt aelConfig data 20).position_open = false)
    (hbrk : (data.getD 20 default).close > rollingMaxHigh (data.map BRow.high) 20 19) :
    (generateSignals aelConfig data).head?
      = some ⟨(data.getD 20 default).timestamp, "LONG", (data.getD 20 default).close,
          (data.getD 20 default).close * 0.97, (data.getD 20 default).close * 1.12,
          "20-day high breakout"⟩ := by
  have h20 : scanStateAt aelConfig data 20 = ScanState.init :=
    scanStateAt_le_warmup aelConfig data 20 (le_refl _)
  have hcond : aelConfig.warmup ≤ 20 ∧ 20 < data.length := ⟨le_refl _, hlen⟩
  have hentry : aelConfig.entryCond data 20 = true := by
    show aelEntry data 20 = true
    unfold aelEntry
    exact decide_eq_true hbrk
  have hstep : scanStep aelConfig data 20 ScanState.init
      = { position_open := true,
          entry_price := aelConfig.close (data.getD 20 default),
          entry_date := aelConfig.timestamp (data.getD 20 default),
          signals := [mkEntrySignal aelConfig data 20] } := by
    unfold scanStep
    rw [if_neg (by simp [ScanState.init]), if_pos (by simp [ScanState.init, hentry])]
    rfl
  have h21 : (scanStateAt aelConfig data 21).signals = [mkEntrySignal aelConfig data 20] := by
    show (scanStateAt aelConfig data (20 + 1)).signals = _
    rw [show scanStateAt aelConfig data (20 + 1)
        = scanStep aelConfig data 20 (scanStateAt aelConfig data 20) from by
      simp only [scanStateAt, if_pos hcond]]
    rw [h20, hstep]
  have hpre := scanStateAt_signals_prefix aelConfig data (show 21 ≤ data.length by omega)
  rw [h21] at hpre
  obtain ⟨t, ht⟩ := hpre
  show (scanStateAt aelConfig data data.length).signals.head? = _
  rw [← ht]
  rfl

/-- C5 witness: the scenario evaluated on the concrete breakout series. -/
theorem c5_witness :
    (generateSignals aelConfig exBreak).head?
      = some ⟨(exBreak.getD 20 default).timestamp, "LONG", (exBreak.getD 20 default).close,
          (exBreak.getD 20 default).close * 0.97, (exBreak.getD 20 default).close * 1.12,
          "20-day high breakout"⟩ :=
  c5_breakout_entry exBreak (by decide) (by decide) (by decide)

/-- C6: Strategy C — given SMA50 ≤ SMA200 at bar i−1 and SMA50 > SMA200
at bar i with no open position, a LONG signal is emitted at bar i with
price close[i], stop_loss = close[i] × 0.94 and take_profit =
close[i] × 1.12; at the first later bar j where SMA50 < SMA200 the
position is closed, and no signal is emitted at any bar in (i, j]. -/
theorem c6_golden_cross_scenario (data : List CRow) (i j : Nat)
    (hi : 200 ≤ i) (hij : i < j) (hjlen : j < data.length)
    (hflat : (scanStateAt apwConfig data i).position_open = false)
    (hgc1 : (data.getD (i - 1) default).SMA_50 ≤ (data.getD (i - 1) default).SMA_200)
    (hgc2 : (data.getD i default).SMA_50 > (data.getD i default).SMA_200)
    (hfirst : ∀ k, i < k → k < j →
      (data.getD k default).SMA_50 ≥ (data.getD k default).SMA_200)
    (hdeath : (data.getD j default).SMA_50 < (data.getD j default).SMA_200) :
    (scanStateAt apwConfig data (i + 1)).signals
      = (scanStateAt apwConfig data i).signals
        ++ [⟨(data.getD i default).timestamp, "LONG", (data.getD i default).close,
             (data.getD i default).close * 0.94, (data.getD i default).close * 1.12,
             "50/200 SMA golden cross"⟩] ∧
    (scanStateAt apwConfig data (i + 1)).position_open = true ∧
    (scanStateAt apwConfig data (j + 1)).position_open = false ∧
    (scanStateAt apwConfig data (j + 1)).signals
      = (scanStateAt apwConfig data (i + 1)).signals := by
  have hcondi : apwConfig.warmup ≤ i ∧ i < data.length := ⟨hi, by omega⟩
  have hgolden : apwConfig.entryCond data i = true := by
    show apwGolden data i = true
    unfold apwGolden
    rw [decide_eq_true hgc1, decide_eq_true hgc2]
    rfl
  have hstepi : scanStateAt apwConfig data (i + 1)
      = { position_open := true,
          entry_price := apwConfig.close (data.getD i default),
          entry_date := apwConfig.timestamp (data.getD i default),
          signals := (scanStateAt apwConfig data i).signals
            ++ [mkEntrySignal apwConfig data i] } := by
    rw [show scanStateAt apwConfig data (i + 1)
        = scanStep apwConfig data i (scanStateAt apwConfig data i) from by
      simp only [scanStateAt, if_pos hcondi]]
    unfold scanStep
    rw [if_neg (by rw [hflat]; simp), if_pos (by rw [hflat]; simp [hgolden])]
  have hopen1 : (scanStateAt apwConfig data (i + 1)).position_open = true := by
    rw [hstepi]
  -- the state is unchanged at every bar in (i, j)
  have hconst : ∀ d : Nat, i + 1 + d ≤ j →
      scanStateAt apwConfig data (i + 1 + d) = scanStateAt apwConfig data (i + 1) := by
    intro d
    induction d with
    | zero => intro _; rfl
    | succ d ihd =>
      intro hd
      have hd2 : i + 1 + d ≤ j := by omega
      have hik : i < i + 1 + d := by omega
      have hkj : i + 1 + d < j := by omega
      have hkcond : apwConfig.warmup ≤ i + 1 + d ∧ i + 1 + d < data.length :=
        ⟨by show 200 ≤ i + 1 + d; omega, by omega⟩
      have hdeathk : apwConfig.exitCond data (i + 1 + d)
          (scanStateAt apwConfig data (i + 1)).entry_price
          (scanStateAt apwConfig data (i + 1)).entry_date = false := by
        show apwDeath data (i + 1 + d) = false
        unfold apwDeath
        rw [decide_eq_false (not_lt.mpr (hfirst (i + 1 + d) hik hkj))]
        simp
      rw [show i + 1 + (d + 1) = (i + 1 + d) + 1 from by omega]
      rw [show scanStateAt apwConfig data ((i + 1 + d) + 1)
          = scanStep apwConfig data (i + 1 + d) (scanStateAt apwConfig data (i + 1 + d)) from by
        simp only [scanStateAt, if_pos hkcond]]
      rw [ihd hd2]
      unfold scanStep
      rw [if_neg (by rw [hopen1, hdeathk]; simp), if_neg (by rw [hopen1]; simp)]
  have hstatej : scanStateAt apwConfig data j = scanStateAt apwConfig data (i + 1) := by
    have := hconst (j - (i + 1)) (by omega)
    rw [show i + 1 + (j - (i + 1)) = j from by omega] at this
    exact this
  have hd1 : (data.getD (j - 1) default).SMA_50 ≥ (data.getD (j - 1) default).SMA_200 := by
    rcases Nat.lt_or_ge i (j - 1) with h | h
    · exact hfirst (j - 1) h (by omega)
    · rw [show j - 1 = i from by omega]
      exact le_of_lt hgc2
  have hdeathj : apwConfig.exitCond data j
      (scanStateAt apwConfig data j).entry_price
      (scanStateAt apwConfig data j).entry_date = true := by
    show apwDeath data j = true
    unfold apwDeath
    rw [decide_eq_true hd1, decide_eq_true hdeath]
    rfl
  have hcondj : apwConfig.warmup ≤ j ∧ j < data.length := ⟨by show 200 ≤ j; omega, hjlen⟩
  have hopenj : (scanStateAt apwConfig data j).position_open = true := by
    rw [hstatej]; exact hopen1
  have hstepj : scanStateAt apwConfig data (j + 1)
      = { scanStateAt apwConfig data j with
            position_open := false, entry_price := 0, entry_date := 0 } := by
    rw [show scanStateAt apwConfig data (j + 1)
        = scanStep apwConfig data j (scanStateAt apwConfig data j) from by
      simp only [scanStateAt, if_pos hcondj]]
    unfold scanStep
    rw [if_pos (by rw [hopenj, hdeathj]; rfl)]
  refine ⟨?_, hopen1, ?_, ?_⟩
  · rw [hstepi]
    rfl
  · rw [hstepj]
  · rw [hstepj]
    show (scanStateAt apwConfig data j).signals = _
    rw [hstatej]

/-- Concrete series for the C6 witness: 200 bars with SMA50 = 1 <
SMA200 = 2, a golden cross at bar 200 (SMA50 = 3 > 2), and a death
cross at bar 201 (SMA50 = 1 < 2). -/
def exCross : List CRow :=
  List.replicate 200 ⟨0, 5, 1, 2⟩ ++ [⟨0, 5, 3, 2⟩, ⟨0, 5, 1, 2⟩]

/-- C6 witness: the scenario evaluated on the concrete crossover
series at i = 200, j = 201. -/
theorem c6_witness :
    (scanStateAt apwConfig exCross 201).signals
      = (scanStateAt apwConfig exCross 200).signals
        ++ [⟨(exCross.getD 200 default).timestamp, "LONG", (exCross.getD 200 default).close,
             (exCross.getD 200 default).close * 0.94, (exCross.getD 200 default).close * 1.12,
             "50/200 SMA golden cross"⟩] ∧
    (scanStateAt apwConfig exCross 201).position_open = true ∧
    (scanStateAt apwConfig exCross 202).position_open = false ∧
    (scanStateAt apwConfig exCross 202).signals = (scanStateAt apwConfig exCross 201).signals :=
  c6_golden_cross_scenario exCross 200 201 (by decide) (by decide) (by decide)
    (by decide) (by decide) (by decide)
    (fun k h1 h2 => absurd h2 (by omega)) (by decide)

/-- When the entry predicate never holds, the scan never leaves the
initial state and no signal is emitted. -/
theorem generateSignals_of_no_entry [Inhabited ρ] (cfg : ScanConfig ρ) (data : List ρ)
    (h : ∀ i, cfg.entryCond data i = false) : generateSignals cfg data = [] := by
  have hstate : ∀ i, scanStateAt cfg data i = ScanState.init := by
    intro i
    induction i with
    | zero => rfl
    | succ i ih =>
      by_cases hc : cfg.warmup ≤ i ∧ i < data.length
      · simp only [scanStateAt, if_pos hc, scanStep]
        rw [ih]
        rw [if_neg (by simp [ScanState.init]), if_neg (by simp [ScanState.init, h i])]
      · simp only [scanStateAt, if_neg hc]
        exact ih
  unfold generateSignals
  rw [hstate]
  rfl

/-- Row for the C7 counterexample: every non-volatility entry
predicate of Strategy A holds, and ATR = 1.1 × ATR_MA exactly
(ATR = 1.1, ATR_MA = 1). -/
def ex7Row : ARow :=
  ⟨0, 100, 90, 80, 70, 50, 1.1, 1, 2, 1, 1, true, false, 2, 1, 1⟩

/-- A 201-bar series of `ex7Row`: bar 200 is past the warm-up bound
and satisfies every entry predicate except the strict volatility
window. -/
def ex7 : List ARow := List.replicate 201 ex7Row

/-- C7 counterexample: at bar 200 of `ex7` every entry predicate other
than the volatility window holds, no position is open, and ATR equals
exactly 1.1 × ATR_MA — yet `generate_signals` emits nothing at all:
the code's ATR filter uses strict inequalities, not a closed interval. -/
theorem c7_counterexample :
    (ex7.getD 200 default).ATR = (ex7.getD 200 default).ATR_MA * 1.1 ∧
    accEntryOther ex7 200 = true ∧
    (scanStateAt accConfig ex7 200).position_open = false ∧
    200 < ex7.length ∧
    ACCStrategy.generate_signals ex7 = [] := by
  have hvol : ∀ i, accVolatilityOk ex7 i = false := by
    intro i
    unfold accVolatilityOk
    rcases Nat.lt_or_ge i 201 with h | h
    · have hrow : ex7.getD i default = ex7Row := by
        rw [List.getD_eq_getElem ex7 default (by simpa [ex7] using h)]
        exact List.getElem_replicate ..
      rw [hrow]
      decide
    · have hrow : ex7.getD i default = default := by
        apply List.getD_eq_default
        simpa [ex7] using h
      rw [hrow]
      decide
  have hnoentry : ∀ i, accConfig.entryCond ex7 i = false := by
    intro i
    show accEntry ex7 i = false
    unfold accEntry
    rw [hvol i]
    rfl
  refine ⟨by decide, by decide, ?_, by decide, ?_⟩
  · rw [scanStateAt_le_warmup accConfig ex7 200 (le_refl _)]
    rfl
  · exact generateSignals_of_no_entry accConfig ex7 hnoentry

/-- C7 amended: with every other entry predicate holding and no open
position at an in-range bar i ≥ 200, the entry fires exactly when ATR
lies in the OPEN interval (0.7, 1.1) × ATR_MA — strictly inside, so
not at either endpoint. -/
theorem c7_amended_strict_volatility_window (data : List ARow) (i : Nat)
    (hi : 200 ≤ i) (hlen : i < data.length)
    (hflat : (scanStateAt accConfig data i).position_open = false)
    (hother : accEntryOther data i = true) :
    ((scanStateAt accConfig data (i + 1)).signals
        = (scanStateAt accConfig data i).signals ++ [mkEntrySignal accConfig data i])
      ↔ ((data.getD i default).ATR < (data.getD i default).ATR_MA * 1.1
          ∧ (data.getD i default).ATR > (data.getD i default).ATR_MA * 0.7) := by
  have hcond : accConfig.warmup ≤ i ∧ i < data.length := ⟨hi, hlen⟩
  have hstate : scanStateAt accConfig data (i + 1)
      = scanStep accConfig data i (scanStateAt accConfig data i) := by
    simp only [scanStateAt, if_pos hcond]
  constructor
  · intro hsig
    by_contra hcontra
    have hvolf : accVolatilityOk data i = false := by
      unfold accVolatilityOk
      by_cases hA : (data.getD i default).ATR < (data.getD i default).ATR_MA * 1.1
      · have hB : ¬((data.getD i default).ATR > (data.getD i default).ATR_MA * 0.7) :=
          fun hb => hcontra ⟨hA, hb⟩
        rw [decide_eq_true hA, decide_eq_false hB]
        rfl
      · rw [decide_eq_false hA]
        rfl
    have hentryf : accConfig.entryCond data i = false := by
      show accEntry data i = false
      unfold accEntry
      rw [hvolf]
      rfl
    have hnostep : scanStateAt accConfig data (i + 1) = scanStateAt accConfig data i := by
      rw [hstate]
      unfold scanStep
      rw [if_neg (by rw [hflat]; simp), if_neg (by rw [hentryf]; simp)]
    rw [hnostep] at hsig
    have := congrArg List.length hsig
    simp at this
  · intro hAB
    have hvol : accVolatilityOk data i = true := by
      unfold accVolatilityOk
      rw [decide_eq_true hAB.1, decide_eq_true hAB.2]
      rfl
    have hentry : accConfig.entryCond data i = true := by
      show accEntry data i = true
      unfold accEntry
      rw [hvol, hother]
      rfl
    rw [hstate]
    unfold scanStep
    rw [if_neg (by rw [hflat]; simp), if_pos (by rw [hflat, hentry]; rfl)]

/-- Row for the C7 amended witness: like `ex7Row` but with ATR = 1,
strictly inside the volatility window. -/
def ex7wRow : ARow :=
  ⟨0, 100, 90, 80, 70, 50, 1, 1, 2, 1, 1, true, false, 2, 1, 1⟩

/-- A 201-bar series of `ex7wRow`. -/
def ex7w : List ARow := List.replicate 201 ex7wRow

/-- C7 amended witness: the strict-window equivalence evaluated at bar
200 of the concrete series `ex7w`. -/
theorem c7_amended_witness :
    ((scanStateAt accConfig ex7w 201).signals
        = (scanStateAt accConfig ex7w 200).signals ++ [mkEntrySignal accConfig ex7w 200])
      ↔ ((ex7w.getD 200 default).ATR < (ex7w.getD 200 default).ATR_MA * 1.1
          ∧ (ex7w.getD 200 default).ATR > (ex7w.getD 200 default).ATR_MA * 0.7) :=
  c7_amended_strict_volatility_window ex7w 200 (le_refl _) (by decide)
    (by rw [scanStateAt_le_warmup accConfig ex7w 200 (le_refl _)]; rfl) (by decide)
